import Mathlib

/- Shallow embedding of `src/llmfunctionclient/main.py` and proofs about it.
   Python strings are modelled as Lean `String` (with the character-level
   helpers working on `List Char`), Python `int` as `Int`, exceptions as
   `Except String`, and the model-serving collaborator as an explicit list of
   responses consumed one per round-trip. -/

namespace LLMFunctionClient

/-- Whitespace test matching Python `str.strip` and the regex class `\s`
for the ASCII strings that appear in docstrings. -/
def isPySpace (c : Char) : Bool :=
  c == ' ' || c == '\t' || c == '\n' || c == '\r' || c == '\x0b' || c == '\x0c'

/-- Word-character test matching the regex class `\w` (ASCII range). -/
def isWordChar (c : Char) : Bool :=
  c.isAlpha || c.isDigit || c == '_'

/-- Leading-whitespace removal, the left half of Python `str.strip`. -/
def stripLeft (cs : List Char) : List Char := cs.dropWhile isPySpace

/-- Trailing-whitespace removal, the right half of Python `str.strip`. -/
def stripRight : List Char → List Char
  | [] => []
  | c :: cs =>
    match stripRight cs with
    | [] => if isPySpace c then [] else [c]
    | c' :: cs' => c :: c' :: cs'

/-- Python `str.strip`: both ends. -/
def pyStrip (cs : List Char) : List Char := stripLeft (stripRight cs)

/-- Python `s.split` at newline characters: the empty string gives one empty
line, and a trailing newline yields a trailing empty line. -/
def splitLines : List Char → List (List Char)
  | [] => [[]]
  | c :: cs =>
    match splitLines cs with
    | [] => [[]]
    | l :: ls => if c == '\n' then [] :: l :: ls else (c :: l) :: ls

/-- Model of `re.match` with the pattern `\s*(\w+):\s*(.*)` applied to one
line: optional leading whitespace, a nonempty run of word characters, a colon,
then the rest.  The second component is returned stripped, exactly as
`parse_description` strips the captured group before storing it. -/
def matchParamLine (line : List Char) : Option (List Char × List Char) :=
  let afterWs := line.dropWhile isPySpace
  let word := afterWs.takeWhile isWordChar
  if word.isEmpty then none
  else
    match afterWs.dropWhile isWordChar with
    | ':' :: rest => some (word, pyStrip rest)
    | _ => none

/-- Python dict used only through membership and lookup (the
`param_descriptions` dict): modelled as a partial map. -/
def dictSet (d : String → Option String) (k v : String) : String → Option String :=
  fun n => if n == k then some v else d n

/-- The empty `param_descriptions` dict. -/
def emptyDict : String → Option String := fun _ => none

/-- Python type annotation, as far as the `issubclass` tests in the source can
observe it.  An enumeration carries its class name and its member names in
declaration order (iterating a Python enum class yields the members in
declaration order, and `e.name` is the symbolic name). -/
inductive Annot where
  | str
  | int
  | bool
  | strEnum (enumName : String) (members : List String)
  | intEnum (enumName : String) (members : List String)
  | plainEnum (enumName : String) (members : List String)
  | other (clsName : String)
deriving DecidableEq, Repr

/-- Result of Python `issubclass(annotation, str)`: `str` itself and
enumerations deriving from `str`. -/
def issubclassStr : Annot → Bool
  | .str => true
  | .strEnum _ _ => true
  | _ => false

/-- Result of Python `issubclass(annotation, int)`: `int`, `bool` (a subclass
of `int` in Python), and enumerations deriving from `int`. -/
def issubclassInt : Annot → Bool
  | .int => true
  | .bool => true
  | .intEnum _ _ => true
  | _ => false

/-- Result of Python `issubclass(annotation, enum.Enum)`. -/
def issubclassEnum : Annot → Bool
  | .strEnum _ _ => true
  | .intEnum _ _ => true
  | .plainEnum _ _ => true
  | _ => false

/-- Member names of an enumeration annotation, in declaration order. -/
def enumMembers : Annot → List String
  | .strEnum _ ms => ms
  | .intEnum _ ms => ms
  | .plainEnum _ ms => ms
  | _ => []

/-- Rendering of the annotation inside an f-string, as in
`f'Unsupported parameter type: {param.annotation}'`. -/
def annotRepr : Annot → String
  | .str => "<class 'str'>"
  | .int => "<class 'int'>"
  | .bool => "<class 'bool'>"
  | .strEnum n _ => "<enum '" ++ n ++ "'>"
  | .intEnum n _ => "<enum '" ++ n ++ "'>"
  | .plainEnum n _ => "<enum '" ++ n ++ "'>"
  | .other n => "<class '" ++ n ++ "'>"

/-- One entry of `inspect.signature(func).parameters`: the name, the
annotation, and whether `param.default` differs from
`inspect.Parameter.empty`. -/
structure Param where
  name : String
  annot : Annot
  hasDefault : Bool
deriving DecidableEq, Repr

/-- A Python callable as the source observes it: `__name__`, `__doc__`
(the empty string models an absent docstring, both being falsy), the
signature parameters in order, and the result of calling it on the
JSON-decoded arguments of a tool call (the composition of `json.loads`
and the call itself). -/
structure Func where
  name : String
  doc : String
  params : List Param
  impl : String → String

/-- Embedding of `parse_description`: the docstring is stripped and split
into lines; the first line (stripped) is the top description, and every later
line matching `\s*(\w+):\s*(.*)` stores its stripped second group under its
first group in the dict, later lines overwriting earlier ones. -/
def parse_description (func : Func) : String × (String → Option String) :=
  if func.doc == "" then ("", emptyDict)
  else
    let lines := splitLines (pyStrip func.doc.data)
    let top_description := String.mk (pyStrip (lines.headD []))
    let param_descriptions := (lines.drop 1).foldl
      (fun d line =>
        match matchParamLine line with
        | some kv => dictSet d (String.mk kv.1) (String.mk kv.2)
        | none => d)
      emptyDict
    (top_description, param_descriptions)

/-- Embedding of `map_type`: `issubclass(annotation, str)` wins first, then
`issubclass(annotation, int)`, otherwise a `ValueError` whose message renders
the annotation. -/
def map_type (param : Param) : Except String String :=
  if issubclassStr param.annot then Except.ok "string"
  else if issubclassInt param.annot then Except.ok "integer"
  else Except.error ("Unsupported parameter type: " ++ annotRepr param.annot)

/-- Embedding of `map_enum`: member names when the annotation is an
enumeration, `None` otherwise. -/
def map_enum (param : Param) : Option (List String) :=
  if issubclassEnum param.annot then some (enumMembers param.annot) else none

/-- One property of the JSON-schema `properties` object: the wire `type`,
the optional `enum` list and the optional `description`. -/
structure PropSpec where
  type : String
  enum : Option (List String)
  description : Option String
deriving DecidableEq, Repr

/-- Python dict assignment `d[k] = v` for the ordered `parameters` dict:
an existing key keeps its position and gets the new value, a fresh key is
appended. -/
def pdictInsert {α : Type} (d : List (String × α)) (k : String) (v : α) :
    List (String × α) :=
  if d.any (fun p => p.1 == k) then
    d.map (fun p => if p.1 == k then (p.1, v) else p)
  else d ++ [(k, v)]

/-- Lookup in the ordered dict model. -/
def pdictGet? {α : Type} (d : List (String × α)) (k : String) : Option α :=
  (d.find? (fun p => p.1 == k)).map (fun p => p.2)

/-- Python truthiness of the `options` value in `parse_parameters`:
`None` and the empty list are falsy. -/
def pyTruthyList : Option (List String) → Option (List String)
  | some (x :: xs) => some (x :: xs)
  | _ => none

/-- Loop body of `parse_parameters` for one parameter: map its type (raising
on unsupported types) and set the property dict entry, adding `enum` only
when `map_enum` returned a truthy list and `description` only when the name
is present in `param_descriptions`. -/
def parse_parameters_step (param_descriptions : String → Option String)
    (parameters : List (String × PropSpec)) (param : Param) :
    Except String (List (String × PropSpec)) := do
  let param_type ← map_type param
  let options := map_enum param
  Except.ok (pdictInsert parameters param.name
    { type := param_type
      enum := pyTruthyList options
      description := param_descriptions param.name })

/-- Embedding of `parse_parameters`: the loop body folded over the signature
parameters in order, starting from the empty dict. -/
def parse_parameters (func : Func) (param_descriptions : String → Option String) :
    Except String (List (String × PropSpec)) :=
  func.params.foldlM (parse_parameters_step param_descriptions) []

/-- Embedding of `get_required`: the names of the parameters whose default is
`inspect.Parameter.empty`, in signature order. -/
def get_required (func : Func) : List String :=
  (func.params.filter (fun param => !param.hasDefault)).map (fun param => param.name)

/-- JSON values as they appear in the wire shapes the source builds. -/
inductive Json where
  | str (s : String)
  | arr (elems : List Json)
  | obj (fields : List (String × Json))
deriving Repr

/-- Field lookup in a JSON object. -/
def jGet? : Json → String → Option Json
  | Json.obj fields, k => (fields.find? (fun p => p.1 == k)).map (fun p => p.2)
  | _, _ => none

/-- The JSON rendering of one property dict, with keys in the order the
source inserts them: `type`, then optionally `enum`, then optionally
`description`. -/
def propSpecJson (p : PropSpec) : Json :=
  Json.obj ([("type", Json.str p.type)]
    ++ (match p.enum with
        | some vs => [("enum", Json.arr (vs.map Json.str))]
        | none => [])
    ++ (match p.description with
        | some d => [("description", Json.str d)]
        | none => []))

/-- Embedding of `to_tool`: the descriptor dict.  Note the source sets the
`description` key on the OUTER dict (`tool['description'] = ...`), as a
sibling of `function`, and only when the top description is truthy. -/
def to_tool (func : Func) : Except String Json := do
  let pd := parse_description func
  let top_description := pd.1
  let props ← parse_parameters func pd.2
  let tool := [("type", Json.str "function"),
               ("function", Json.obj
                 [("name", Json.str func.name),
                  ("parameters", Json.obj
                    [("type", Json.str "object"),
                     ("properties", Json.obj (props.map (fun p => (p.1, propSpecJson p.2)))),
                     ("required", Json.arr ((get_required func).map Json.str))])])]
  Except.ok (Json.obj
    (if top_description == "" then tool else tool ++ [("description", Json.str top_description)]))

/-- One conversation message, a Python dict with optional keys.  The role is
optional because `send_message` forwards its own (possibly `None`) `role`
argument to `add_message`, and the content is optional because the model's
`message.content` may be `None`. -/
structure Message where
  role : Option String
  content : Option String
  tool_call_id : Option String := none
  name : Option String := none
deriving DecidableEq, Repr

/-- The `function` part of a model-issued tool call: the tool name and its
JSON-encoded arguments. -/
structure ToolCallFunction where
  name : String
  arguments : String
deriving DecidableEq, Repr

/-- A model-issued tool call: a correlation id plus the function part. -/
structure ToolCall where
  id : String
  function : ToolCallFunction
deriving DecidableEq, Repr

/-- The `response.choices[0].message` the collaborator returns for one
round-trip: a content string (possibly `None`) and a tool-call list, with the
empty list standing for both `None` and `[]` (both falsy, and iterated
identically). -/
structure Response where
  content : Option String
  tool_calls : List ToolCall
deriving DecidableEq, Repr

/-- The keyword arguments the source actually passes to
`self.client.chat.completions.create`.  The create API also accepts a
`tool_choice` keyword (spec section 6); the source never passes it, which the
embedding records as `none`. -/
structure Request where
  model : String
  messages : List Message
  tools : List Json
  tool_choice : Option Json
deriving Repr

/-- The `args` dict built (and then never used) at the top of
`__send_message`: keys `model`, `messages`, `tools`, and `tool_choice` only
when `force_function` is truthy. -/
structure CreateArgs where
  model : Option String
  messages : List Message
  tools : List Json
  tool_choice : Option Json
deriving Repr

/-- The forced-tool directive dict
`{"type": "function", "function": {"name": force_function}}`. -/
def tool_choice_directive (name : String) : Json :=
  Json.obj [("type", Json.str "function"),
            ("function", Json.obj [("name", Json.str name)])]

/-- The `args` dict of `__send_message`, including Python truthiness of
`force_function` (`None` and the empty string are falsy). -/
def __send_message_args (model : Option String) (messages : List Message)
    (tools : List Json) (force_function : Option String) : CreateArgs :=
  { model := model
    messages := messages
    tools := tools
    tool_choice := match force_function with
      | some s => if s == "" then none else some (tool_choice_directive s)
      | none => none }

/-- Lookup in the dict comprehension `{func.__name__: func for func in funcs}`:
when two callables share a name the later one wins. -/
def tmapOf (funcs : List Func) : String → Option Func :=
  fun name => funcs.reverse.find? (fun f => f.name == name)

/-- Embedding of `funcs_to_tools`: the tool descriptors (a schema error while
building any of them escapes) together with the name-to-callable map. -/
def funcs_to_tools (funcs : List Func) :
    Except String (List Json × (String → Option Func)) := do
  let tools ← funcs.mapM to_tool
  Except.ok (tools, tmapOf funcs)

/-- Embedding of `add_message`: appends `{'role': role, 'content': content}`.
The Python default for `role` is `'user'`, which applies only when the caller
omits the argument; `send_message` always passes its own `role` value. -/
def add_message (messages : List Message) (content : String) (role : Option String) :
    List Message :=
  messages ++ [{ role := role, content := some content }]

/-- The function-result message appended for one dispatched tool call:
`{"role": "function", "tool_call_id": ..., "name": ..., "content": result}`. -/
def toolResultMessage (tools_map : String → Option Func) (tc : ToolCall) : Message :=
  { role := some "function"
    content := (tools_map tc.function.name).map (fun f => f.impl tc.function.arguments)
    tool_call_id := some tc.id
    name := some tc.function.name }

/-- The tool-call loop of `__send_message`: each call, in response order,
is dispatched through the name map (a missing name raises `KeyError`, as
`tools_map[...]` does) and its result message is appended. -/
def processToolCalls (tools_map : String → Option Func) (messages : List Message) :
    List ToolCall → Except String (List Message)
  | [] => Except.ok messages
  | tc :: rest =>
    match tools_map tc.function.name with
    | none => Except.error ("KeyError: " ++ tc.function.name)
    | some _ =>
      processToolCalls tools_map (messages ++ [toolResultMessage tools_map tc]) rest

/-- Embedding of `__send_message` for one round-trip, given the response the
collaborator returns to the `create` call.  The outer `Except` is a schema
error raised while building the tools, before the request exists; on success
the issued request is paired with the processing outcome (which can still
raise `KeyError` during dispatch, after the request was issued).  The `args`
dict is built exactly as in the source and then discarded: `create` receives
only `model=self.model`, `messages` and `tools`. -/
def __send_message (selfModel : String) (messages : List Message)
    (functions : List Func) (force_function : Option String)
    (model : Option String) (resp : Response) :
    Except String (Request × Except String (Bool × List Message)) := do
  let pair ← funcs_to_tools functions
  let tools := pair.1
  let tools_map := pair.2
  let _args := __send_message_args model messages tools force_function
  let req : Request :=
    { model := selfModel, messages := messages, tools := tools, tool_choice := none }
  if resp.tool_calls.isEmpty then
    Except.ok (req, Except.ok (true,
      messages ++ [{ role := some "assistant", content := resp.content }]))
  else
    Except.ok (req, (processToolCalls tools_map messages resp.tool_calls).map
      (fun ms => (false, ms)))

/-- Embedding of the `while not done and i < num_calls` loop of
`send_message`.  The counter `i` is passed through UNCHANGED on every
iteration, exactly as in the source, whose loop body never increments it.
The response list is the oracle for the collaborator: running out of
responses models an upstream failure, raised after the tools were built.
The first component collects the requests actually issued. -/
def send_message_loop (selfModel : String) (functions : List Func)
    (model : Option String) (num_calls i : Int) (done : Bool)
    (messages : List Message) (responses : List Response) :
    List Request × Except String (List Message) :=
  if done then ([], Except.ok messages)
  else if !(i < num_calls) then ([], Except.ok messages)
  else
    match responses with
    | [] =>
      ([], match funcs_to_tools functions with
           | Except.error e => Except.error e
           | Except.ok _ => Except.error "UpstreamError: no response")
    | r :: rest =>
      match __send_message selfModel messages functions none model r with
      | Except.error e => ([], Except.error e)
      | Except.ok (req, Except.error e) => ([req], Except.error e)
      | Except.ok (req, Except.ok (d, messages')) =>
        let tail := send_message_loop selfModel functions model num_calls i d messages' rest
        (req :: tail.1, tail.2)

/-- The `force_function` argument of `send_message`: a string or a callable. -/
inductive StrOrFunc where
  | str (s : String)
  | func (f : Func)

/-- The `if callable(force_function): force_function = force_function.__name__`
resolution step. -/
def resolve_force_function : Option StrOrFunc → Option String
  | some (StrOrFunc.func f) => some f.name
  | some (StrOrFunc.str s) => some s
  | none => none

/-- The `if not functions: functions = self.functions` resolution step
(the empty list is falsy). -/
def resolve_functions (functionsArg : Option (List Func)) (selfFunctions : List Func) :
    List Func :=
  match functionsArg with
  | some fs => if fs.isEmpty then selfFunctions else fs
  | none => selfFunctions

/-- The `if content: self.add_message(content, role)` step of `send_message`:
the raw `role` argument is forwarded as-is (the empty content string is
falsy and appends nothing). -/
def message_after_content (selfMessages : List Message)
    (content role : Option String) : List Message :=
  match content with
  | some c => if c == "" then selfMessages else add_message selfMessages c role
  | none => selfMessages

/-- The `if not model: model = self.model` step of `send_message`
(the empty string is falsy). -/
def resolve_model (selfModel : String) (model : Option String) : String :=
  match model with
  | some m => if m == "" then selfModel else m
  | none => selfModel

/-- Embedding of `send_message`.  The client state is passed explicitly
(`selfModel`, `selfFunctions`, `selfMessages`); the collaborator is the
response list.  Steps, in source order: append the content message (passing
the raw `role` argument through to `add_message`); resolve the function list,
the forced function, and the model; perform the first `__send_message` with
the forced function; set `i = 1`; run the while loop (which never increments
`i`); finally return `self.messages[-1]['content']`.  The result is the
request trace paired with either the error or the final message list and the
returned content. -/
def send_message (selfModel : String) (selfFunctions : List Func)
    (selfMessages : List Message) (content : Option String) (role : Option String)
    (model : Option String) (functionsArg : Option (List Func))
    (force_function : Option StrOrFunc) (num_calls : Int)
    (responses : List Response) :
    List Request × Except String (List Message × Option String) :=
  match responses with
  | [] =>
    ([], match funcs_to_tools (resolve_functions functionsArg selfFunctions) with
         | Except.error e => Except.error e
         | Except.ok _ => Except.error "UpstreamError: no response")
  | r :: rest =>
    match __send_message selfModel (message_after_content selfMessages content role)
        (resolve_functions functionsArg selfFunctions)
        (resolve_force_function force_function)
        (some (resolve_model selfModel model)) r with
    | Except.error e => ([], Except.error e)
    | Except.ok (req0, Except.error e) => ([req0], Except.error e)
    | Except.ok (req0, Except.ok (done, messages1)) =>
      let tail := send_message_loop selfModel (resolve_functions functionsArg selfFunctions)
        (some (resolve_model selfModel model)) num_calls 1 done messages1 rest
      (req0 :: tail.1,
       tail.2.bind (fun messagesF =>
         match messagesF.getLast? with
         | none => Except.error "IndexError: list index out of range"
         | some m => Except.ok (messagesF, m.content)))

/-- Scenario A callable: `add(a: int, b: int)` with docstring
`"Add two numbers.\na: first\nb: second"`. -/
def addFunc : Func :=
  { name := "add"
    doc := "Add two numbers.\na: first\nb: second"
    params := [{ name := "a", annot := Annot.int, hasDefault := false },
               { name := "b", annot := Annot.int, hasDefault := false }]
    impl := fun _ => "3" }

/-- A zero-parameter tool used by the dispatch-loop scenarios. -/
def echoFunc : Func :=
  { name := "echo"
    doc := ""
    params := []
    impl := fun _ => "ok" }

/-- A response carrying a single tool call addressed to `echo`. -/
def echoCallResponse : Response :=
  { content := none
    tool_calls := [{ id := "call_1", function := { name := "echo", arguments := "{}" } }] }

/-- A plain-text final response. -/
def textResponse : Response :=
  { content := some "done", tool_calls := [] }

/-- A callable whose single parameter has an unsupported annotation, so that
schema building fails. -/
def badFunc : Func :=
  { name := "bad"
    doc := ""
    params := [{ name := "p", annot := Annot.other "Foo", hasDefault := false }]
    impl := fun _ => "" }

/-- The tool descriptor of `echoFunc`: empty properties, empty required, and
no description key (Scenario B of the spec). -/
def echoToolJson : Json :=
  Json.obj [("type", Json.str "function"),
            ("function", Json.obj
              [("name", Json.str "echo"),
               ("parameters", Json.obj
                 [("type", Json.str "object"),
                  ("properties", Json.obj []),
                  ("required", Json.arr [])])])]

/-- C1: the claim says a `send_message` call performs at most `num_calls`
round-trips.  The source sets `i = 0`, increments it once after the first
call, and then never increments it inside the `while not done and i < num_calls`
loop, so for `num_calls = 2` and a model that answers with tool calls three
times before a final text answer, four round-trips are performed.  This
theorem evaluates the code at that failing input. -/
theorem send_message_exceeds_num_calls :
    (send_message "gpt-x" [echoFunc] [] (some "hi") none none none none 2
      [echoCallResponse, echoCallResponse, echoCallResponse, textResponse]).1.length = 4 :=
  rfl

/-- C2: the claim says turn 0's request carries the forced-tool directive.
The source builds the directive into a local `args` dict but then calls
`create` with explicit keyword arguments that never include `tool_choice`,
so no issued request carries a forced directive — while the discarded `args`
dict does.  This theorem evaluates the code at the failing input
`force_function = "echo"` with `echo` in the active set. -/
theorem send_message_force_directive_never_sent :
    ((send_message "gpt-x" [echoFunc] [] (some "hi") none none none
        (some (StrOrFunc.str "echo")) 100 [echoCallResponse, textResponse]).1.map
      (fun req => req.tool_choice) = [none, none]) ∧
    (__send_message_args (some "gpt-x") [] [] (some "echo")).tool_choice =
      some (tool_choice_directive "echo") :=
  ⟨rfl, rfl⟩

/-- C3 counterexample: the claim says the descriptor's `description` field is
nested inside the `function` object.  For the Scenario A callable `add`, the
built descriptor's `function` object exists and carries no `description`
key: the source sets `tool['description']` on the outer dict instead. -/
theorem to_tool_description_not_inside_function_obj :
    ((to_tool addFunc).toOption.bind (fun t => jGet? t "function")).isSome = true ∧
    (((to_tool addFunc).toOption.bind (fun t => jGet? t "function")).bind
      (fun f => jGet? f "description")) = none :=
  ⟨rfl, rfl⟩

/-- C3 amended: the descriptor produced for `add(a: int, b: int)` with
docstring `"Add two numbers.\na: first\nb: second"` carries the description
`"Add two numbers."` as a TOP-LEVEL key of the descriptor (a sibling of
`function`, not inside it), properties `a` and `b` of type `integer` with
descriptions `first` and `second`, and required `["a", "b"]`. -/
theorem to_tool_add_descriptor :
    to_tool addFunc = Except.ok (Json.obj
      [("type", Json.str "function"),
       ("function", Json.obj
         [("name", Json.str "add"),
          ("parameters", Json.obj
            [("type", Json.str "object"),
             ("properties", Json.obj
               [("a", Json.obj [("type", Json.str "integer"),
                                ("description", Json.str "first")]),
                ("b", Json.obj [("type", Json.str "integer"),
                                ("description", Json.str "second")])]),
             ("required", Json.arr [Json.str "a", Json.str "b"])])]),
       ("description", Json.str "Add two numbers.")]) :=
  rfl

/-- C5: the claim says a `send_message` call with content and no explicit role
appends a message with role `"user"`.  The source passes its own `role`
argument (default `None`) positionally to `add_message`, bypassing
`add_message`'s `'user'` default, so the appended message has role `None`.
This theorem evaluates the code at the failing input. -/
theorem send_message_role_is_none_by_default :
    (send_message "gpt-x" [echoFunc] [] (some "hi") none none none none 100
      [textResponse]).2 =
    Except.ok ([{ role := none, content := some "hi" },
                { role := some "assistant", content := some "done" }], some "done") :=
  rfl

/-- C4 counterexample: the claim says a boolean-typed parameter fails fast
with a SchemaError naming both the offending type and the offending
parameter.  In the source, `issubclass(bool, int)` holds, so a `bool`
annotation maps to `"integer"` instead of failing; and for a genuinely
unsupported annotation the `ValueError` message renders only the annotation,
never the parameter name (here `x` does not appear in the message). -/
theorem map_type_bool_maps_to_integer :
    map_type { name := "flag", annot := Annot.bool, hasDefault := false } =
      Except.ok "integer" ∧
    map_type { name := "x", annot := Annot.other "Foo", hasDefault := false } =
      Except.error "Unsupported parameter type: <class 'Foo'>" :=
  ⟨rfl, rfl⟩

/-- C4 amended: a string-like annotation maps to `"string"`; an integer-like
annotation — including `bool`, which Python treats as a subclass of `int` —
maps to `"integer"`; any other annotation raises a `ValueError` whose message
names the offending type only (it is a function of the annotation alone,
independent of the parameter's name); and a schema failure while resolving
the active tools aborts `send_message` with that very error before any
request is issued (the request trace is empty). -/
theorem map_type_spec (param : Param) :
    (issubclassStr param.annot = true → map_type param = Except.ok "string") ∧
    (issubclassStr param.annot = false → issubclassInt param.annot = true →
      map_type param = Except.ok "integer") ∧
    (issubclassStr param.annot = false → issubclassInt param.annot = false →
      map_type param =
        Except.error ("Unsupported parameter type: " ++ annotRepr param.annot)) ∧
    (∀ q : Param, q.annot = param.annot → map_type q = map_type param) ∧
    (∀ (selfModel : String) (selfFunctions : List Func) (selfMessages : List Message)
       (content role model : Option String) (functionsArg : Option (List Func))
       (ff : Option StrOrFunc) (num_calls : Int) (responses : List Response)
       (e : String),
       funcs_to_tools (resolve_functions functionsArg selfFunctions) = Except.error e →
       send_message selfModel selfFunctions selfMessages content role model functionsArg
         ff num_calls responses = ([], Except.error e)) := by
  refine ⟨?_, ?_, ?_, ?_, ?_⟩
  · intro h; simp [map_type, h]
  · intro h1 h2; simp [map_type, h1, h2]
  · intro h1 h2; simp [map_type, h1, h2]
  · intro q hq; simp [map_type, hq]
  · intro selfModel selfFunctions selfMessages content role model functionsArg ff
      num_calls responses e h
    cases responses with
    | nil => simp [send_message, h]
    | cons r rest => simp [send_message, __send_message, h, Bind.bind, Except.bind]

/-- C4 witness: the three branches of `map_type_spec` at concrete parameters,
and the fail-fast conjunct at a concrete client whose only tool has an
unsupported parameter type. -/
theorem map_type_spec_witness :
    map_type { name := "s", annot := Annot.str, hasDefault := false } =
      Except.ok "string" ∧
    map_type { name := "flag2", annot := Annot.bool, hasDefault := true } =
      Except.ok "integer" ∧
    send_message "gpt-x" [badFunc] [] (some "hi") none none none none 100
        [textResponse] =
      ([], Except.error "Unsupported parameter type: <class 'Foo'>") :=
  ⟨(map_type_spec _).1 rfl,
   (map_type_spec _).2.1 rfl rfl,
   (map_type_spec { name := "s", annot := Annot.str, hasDefault := false }).2.2.2.2
     "gpt-x" [badFunc] [] (some "hi") none none none none 100 [textResponse]
     "Unsupported parameter type: <class 'Foo'>" rfl⟩

/-- C6: a name is in `get_required` exactly when some parameter of that name
has no default value, and the required list is permutation-invariant: callables
whose parameter lists are permutations of one another yield required lists
that are permutations of one another. -/
theorem get_required_spec (f g : Func) (h : f.params.Perm g.params) :
    (∀ name, name ∈ get_required f ↔
       ∃ p, p ∈ f.params ∧ p.name = name ∧ p.hasDefault = false) ∧
    (get_required f).Perm (get_required g) := by
  constructor
  · intro name
    simp only [get_required, List.mem_map, List.mem_filter, Bool.not_eq_true']
    constructor
    · rintro ⟨p, ⟨hp, hd⟩, hn⟩
      exact ⟨p, hp, hn, hd⟩
    · rintro ⟨p, hp, hn, hd⟩
      exact ⟨p, ⟨hp, hd⟩, hn⟩
  · exact (h.filter _).map _

/-- A callable with one required and one defaulted parameter. -/
def reqFuncAB : Func :=
  { name := "f", doc := "", impl := fun _ => ""
    params := [{ name := "a", annot := Annot.int, hasDefault := false },
               { name := "b", annot := Annot.str, hasDefault := true }] }

/-- The same callable with its parameters in the opposite order. -/
def reqFuncBA : Func :=
  { name := "f", doc := "", impl := fun _ => ""
    params := [{ name := "b", annot := Annot.str, hasDefault := true },
               { name := "a", annot := Annot.int, hasDefault := false }] }

/-- C6 witness: at the concrete pair of permuted callables, `a` (no default)
is required and the two required lists are permutations of each other. -/
theorem get_required_spec_witness :
    "a" ∈ get_required reqFuncAB ∧
    (get_required reqFuncAB).Perm (get_required reqFuncBA) :=
  ⟨((get_required_spec reqFuncAB reqFuncBA (by decide)).1 "a").mpr
     ⟨{ name := "a", annot := Annot.int, hasDefault := false }, by decide, rfl, rfl⟩,
   (get_required_spec reqFuncAB reqFuncBA (by decide)).2⟩

/-- When every requested tool name resolves in the map, the dispatch loop of
`__send_message` appends exactly one function-result message per call, in
call order. -/
theorem processToolCalls_ok (tools_map : String → Option Func)
    (messages : List Message) (calls : List ToolCall)
    (h : ∀ c ∈ calls, (tools_map c.function.name).isSome) :
    processToolCalls tools_map messages calls =
      Except.ok (messages ++ calls.map (toolResultMessage tools_map)) := by
  induction calls generalizing messages with
  | nil => simp [processToolCalls]
  | cons c rest ih =>
    have hc := h c (List.mem_cons_self c rest)
    match hm : tools_map c.function.name with
    | none => rw [hm] at hc; simp at hc
    | some f =>
      rw [processToolCalls, hm]
      rw [ih _ (fun c' hc' => h c' (List.mem_cons_of_mem _ hc'))]
      simp

/-- A successful tool build means `__send_message` issues exactly the request
`create(model=self.model, messages=self.messages, tools=tools)`, with no
`tool_choice`. -/
theorem __send_message_request (selfModel : String) (messages : List Message)
    (functions : List Func) (ff model : Option String) (resp : Response)
    (tools : List Json) (htools : functions.mapM to_tool = Except.ok tools) :
    ∃ inner, __send_message selfModel messages functions ff model resp =
      Except.ok ({ model := selfModel, messages := messages, tools := tools,
                   tool_choice := none }, inner) := by
  simp only [__send_message, funcs_to_tools, htools, Bind.bind, Except.bind]
  split
  · exact ⟨_, rfl⟩
  · exact ⟨_, rfl⟩

/-- Any request `__send_message` manages to issue uses the client's
construction-time model and the current message log. -/
theorem __send_message_request_fields (selfModel : String) (messages : List Message)
    (functions : List Func) (ff model : Option String) (resp : Response)
    (req : Request) (inner : Except String (Bool × List Message))
    (h : __send_message selfModel messages functions ff model resp =
      Except.ok (req, inner)) :
    req.model = selfModel ∧ req.messages = messages := by
  rcases hft : funcs_to_tools functions with e | pair
  · simp [__send_message, hft, Bind.bind, Except.bind] at h
  · simp only [__send_message, hft, Bind.bind, Except.bind] at h
    split at h <;>
      (simp only [Except.ok.injEq, Prod.mk.injEq] at h; rcases h with ⟨h1, h2⟩;
       subst h1; exact ⟨rfl, rfl⟩)

/-- Unfolding of one iteration of the while loop when it is still running:
not done and the counter still below `num_calls`. -/
theorem send_message_loop_cons (selfModel : String) (functions : List Func)
    (model : Option String) (num_calls i : Int) (messages : List Message)
    (r : Response) (rest : List Response) (hi : i < num_calls) :
    send_message_loop selfModel functions model num_calls i false messages (r :: rest) =
      match __send_message selfModel messages functions none model r with
      | Except.error e => ([], Except.error e)
      | Except.ok (req, Except.error e) => ([req], Except.error e)
      | Except.ok (req, Except.ok (d, messages')) =>
        let tail := send_message_loop selfModel functions model num_calls i d messages' rest
        (req :: tail.1, tail.2) := by
  conv_lhs => rw [send_message_loop.eq_def]
  rw [if_neg (by simp), if_neg (by simp [hi])]

/-- C8: a response carrying tool calls that all resolve makes `__send_message`
append exactly one function-role message per call — carrying the call's id,
name, and the callable's result — in response order; and the next turn's
request (whatever response follows) carries exactly that extended message
log, so all result messages precede the next request. -/
theorem tool_calls_append_spec (selfModel : String) (messages : List Message)
    (functions : List Func) (ff model : Option String) (resp : Response)
    (tools : List Json)
    (htools : functions.mapM to_tool = Except.ok tools)
    (hne : resp.tool_calls ≠ [])
    (hres : ∀ c ∈ resp.tool_calls, (tmapOf functions c.function.name).isSome) :
    __send_message selfModel messages functions ff model resp =
      Except.ok ({ model := selfModel, messages := messages, tools := tools,
                   tool_choice := none },
        Except.ok (false,
          messages ++ resp.tool_calls.map (toolResultMessage (tmapOf functions)))) ∧
    (resp.tool_calls.map (toolResultMessage (tmapOf functions))).length =
      resp.tool_calls.length ∧
    (∀ (num_calls i : Int) (r' : Response) (rest : List Response), i < num_calls →
      (send_message_loop selfModel functions model num_calls i false
          (messages ++ resp.tool_calls.map (toolResultMessage (tmapOf functions)))
          (r' :: rest)).1.head? =
        some { model := selfModel,
               messages := messages ++
                 resp.tool_calls.map (toolResultMessage (tmapOf functions)),
               tools := tools, tool_choice := none }) := by
  refine ⟨?_, List.length_map _ _, ?_⟩
  · simp only [__send_message, funcs_to_tools, htools, Bind.bind, Except.bind]
    rw [if_neg (by simpa [List.isEmpty_iff] using hne)]
    rw [processToolCalls_ok _ _ _ hres]
    rfl
  · intro num_calls i r' rest hi
    obtain ⟨inner, hstep⟩ := __send_message_request selfModel
      (messages ++ resp.tool_calls.map (toolResultMessage (tmapOf functions)))
      functions none model r' tools htools
    rw [send_message_loop_cons _ _ _ _ _ _ _ _ hi, hstep]
    cases inner with
    | error e => rfl
    | ok p => rcases p with ⟨d, messages'⟩; rfl

/-- C8 witness: Scenario C — one response carrying two tool calls makes the
code append exactly the two function-role result messages, in order, and the
next request carries them. -/
theorem tool_calls_append_spec_witness :
    __send_message "gpt-x" [] [echoFunc] none none
      { content := none,
        tool_calls := [{ id := "c1", function := { name := "echo", arguments := "{}" } },
                       { id := "c2", function := { name := "echo", arguments := "{}" } }] } =
      Except.ok ({ model := "gpt-x", messages := [], tools := [echoToolJson],
                   tool_choice := none },
        Except.ok (false,
          [{ role := some "function", content := some "ok",
             tool_call_id := some "c1", name := some "echo" },
           { role := some "function", content := some "ok",
             tool_call_id := some "c2", name := some "echo" }])) :=
  (tool_calls_append_spec "gpt-x" [] [echoFunc] none none
    { content := none,
      tool_calls := [{ id := "c1", function := { name := "echo", arguments := "{}" } },
                     { id := "c2", function := { name := "echo", arguments := "{}" } }] }
    [echoToolJson] rfl (by simp)
    (by intro c hc; fin_cases hc <;> rfl)).1

/-- The `model` argument of `__send_message` flows only into the discarded
`args` dict, so the whole result is independent of it. -/
theorem __send_message_model_arg_irrel (selfModel : String) (messages : List Message)
    (functions : List Func) (ff m1 m2 : Option String) (resp : Response) :
    __send_message selfModel messages functions ff m1 resp =
    __send_message selfModel messages functions ff m2 resp := rfl

/-- The while loop is likewise independent of the `model` argument it forwards
to `__send_message`. -/
theorem send_message_loop_model_arg_irrel (selfModel : String) (functions : List Func)
    (m1 m2 : Option String) (num_calls : Int) :
    ∀ (responses : List Response) (i : Int) (done : Bool) (messages : List Message),
      send_message_loop selfModel functions m1 num_calls i done messages responses =
      send_message_loop selfModel functions m2 num_calls i done messages responses := by
  intro responses
  induction responses with
  | nil => intro i done messages; rfl
  | cons r rest ih =>
    intro i done messages
    by_cases hd : done
    · subst hd; rfl
    · simp only [Bool.not_eq_true] at hd
      subst hd
      by_cases hi : i < num_calls
      · rw [send_message_loop_cons _ _ _ _ _ _ _ _ hi,
          send_message_loop_cons _ _ _ _ _ _ _ _ hi,
          __send_message_model_arg_irrel selfModel messages functions none m1 m2 r]
        rcases __send_message selfModel messages functions none m2 r with e | ⟨req, inner⟩
        · rfl
        · rcases inner with e | ⟨d, messages'⟩
          · rfl
          · simp only []
            rw [ih]
      · conv_lhs => rw [send_message_loop.eq_def]
        conv_rhs => rw [send_message_loop.eq_def]
        simp [hi]

/-- Every request the while loop issues carries the construction-time model. -/
theorem send_message_loop_requests_model (selfModel : String) (functions : List Func)
    (model : Option String) (num_calls : Int) :
    ∀ (responses : List Response) (i : Int) (done : Bool) (messages : List Message)
      (req : Request),
      req ∈ (send_message_loop selfModel functions model num_calls i done
        messages responses).1 → req.model = selfModel := by
  intro responses
  induction responses with
  | nil =>
    intro i done messages req h
    rw [send_message_loop.eq_def] at h
    split at h
    · simp at h
    · split at h
      · simp at h
      · simp at h
  | cons r rest ih =>
    intro i done messages req h
    by_cases hd : done
    · subst hd; rw [send_message_loop.eq_def] at h; simp at h
    · simp only [Bool.not_eq_true] at hd
      subst hd
      by_cases hi : i < num_calls
      · rw [send_message_loop_cons _ _ _ _ _ _ _ _ hi] at h
        rcases hstep : __send_message selfModel messages functions none model r
          with e | ⟨req', inner⟩
        · rw [hstep] at h; simp at h
        · rw [hstep] at h
          have hfields := __send_message_request_fields selfModel messages functions
            none model r req' inner hstep
          rcases inner with e | ⟨d, messages'⟩
          · simp only [List.mem_singleton] at h
            subst h; exact hfields.1
          · simp only [List.mem_cons] at h
            rcases h with h | h
            · subst h; exact hfields.1
            · exact ih i d messages' req h
      · rw [send_message_loop.eq_def] at h
        rw [if_neg (by simp), if_pos (by simp [hi])] at h
        simp at h

/-- Unfolding of `send_message` when at least one response is available. -/
theorem send_message_cons (selfModel : String) (selfFunctions : List Func)
    (selfMessages : List Message) (content role model : Option String)
    (functionsArg : Option (List Func)) (ff : Option StrOrFunc) (num_calls : Int)
    (r : Response) (rest : List Response) :
    send_message selfModel selfFunctions selfMessages content role model functionsArg
        ff num_calls (r :: rest) =
      match __send_message selfModel (message_after_content selfMessages content role)
          (resolve_functions functionsArg selfFunctions) (resolve_force_function ff)
          (some (resolve_model selfModel model)) r with
      | Except.error e => ([], Except.error e)
      | Except.ok (req0, Except.error e) => ([req0], Except.error e)
      | Except.ok (req0, Except.ok (done, messages1)) =>
        let tail := send_message_loop selfModel
          (resolve_functions functionsArg selfFunctions)
          (some (resolve_model selfModel model)) num_calls 1 done messages1 rest
        (req0 :: tail.1,
         tail.2.bind (fun messagesF =>
           match messagesF.getLast? with
           | none => Except.error "IndexError: list index out of range"
           | some m => Except.ok (messagesF, m.content))) := rfl

/-- C10: every request issued by a `send_message` call carries the model
string fixed at client construction, and the entire observable behaviour
(request trace, message log, return value) is unchanged when the `model`
argument is varied — the argument only reaches the dead `args` dict. -/
theorem send_message_model_from_constructor (selfModel : String)
    (selfFunctions : List Func) (selfMessages : List Message)
    (content role model modelAlt : Option String) (functionsArg : Option (List Func))
    (ff : Option StrOrFunc) (num_calls : Int) (responses : List Response) :
    (∀ req ∈ (send_message selfModel selfFunctions selfMessages content role model
        functionsArg ff num_calls responses).1, req.model = selfModel) ∧
    send_message selfModel selfFunctions selfMessages content role model functionsArg
        ff num_calls responses =
      send_message selfModel selfFunctions selfMessages content role modelAlt
        functionsArg ff num_calls responses := by
  constructor
  · intro req h
    rcases responses with _ | ⟨r, rest⟩
    · rw [send_message] at h; simp at h
    · rw [send_message_cons] at h
      rcases hstep : __send_message selfModel
          (message_after_content selfMessages content role)
          (resolve_functions functionsArg selfFunctions) (resolve_force_function ff)
          (some (resolve_model selfModel model)) r
        with e | ⟨req', inner⟩
      · rw [hstep] at h; simp at h
      · rw [hstep] at h
        have hfields := __send_message_request_fields _ _ _ _ _ _ _ _ hstep
        rcases inner with e | ⟨d, messages1⟩
        · simp only [List.mem_singleton] at h
          subst h; exact hfields.1
        · simp only [List.mem_cons] at h
          rcases h with h | h
          · subst h; exact hfields.1
          · exact send_message_loop_requests_model selfModel _ _ num_calls rest 1 d
              messages1 req h
  · rcases responses with _ | ⟨r, rest⟩
    · rfl
    · rw [send_message_cons, send_message_cons,
        __send_message_model_arg_irrel selfModel _ _ _
          (some (resolve_model selfModel model))
          (some (resolve_model selfModel modelAlt)) r]
      rcases __send_message selfModel
          (message_after_content selfMessages content role)
          (resolve_functions functionsArg selfFunctions) (resolve_force_function ff)
          (some (resolve_model selfModel modelAlt)) r
        with e | ⟨req', inner⟩
      · rfl
      · rcases inner with e | ⟨d, messages1⟩
        · rfl
        · simp only []
          rw [send_message_loop_model_arg_irrel selfModel _
            (some (resolve_model selfModel model))
            (some (resolve_model selfModel modelAlt)) num_calls rest 1 d messages1]

/-- C10 witness: a concrete run with an explicit `model` argument different
from the construction-time one still issues its only request with the
construction-time model, and behaves identically to a run with yet another
`model` argument. -/
theorem send_message_model_from_constructor_witness :
    ({ model := "gpt-x", messages := [{ role := none, content := some "hi" }],
       tools := [echoToolJson], tool_choice := none } : Request).model = "gpt-x" ∧
    send_message "gpt-x" [echoFunc] [] (some "hi") none (some "other-model") none none
        100 [textResponse] =
      send_message "gpt-x" [echoFunc] [] (some "hi") none (some "third-model") none none
        100 [textResponse] :=
  ⟨(send_message_model_from_constructor "gpt-x" [echoFunc] [] (some "hi") none
      (some "other-model") (some "third-model") none none 100 [textResponse]).1
      _ (List.Mem.head _),
   (send_message_model_from_constructor "gpt-x" [echoFunc] [] (some "hi") none
      (some "other-model") (some "third-model") none none 100 [textResponse]).2⟩

/-- The element replacement in `pdictInsert` never changes keys, so `find?`
commutes with it. -/
theorem find?_map_replace {α : Type} (d : List (String × α)) (k n : String) (v : α) :
    (d.map (fun p => if p.1 == k then (p.1, v) else p)).find? (fun p => p.1 == n) =
      (d.find? (fun p => p.1 == n)).map (fun p => if p.1 == k then (p.1, v) else p) := by
  induction d with
  | nil => rfl
  | cons p d' ih =>
    have hfst : ((if p.1 == k then (p.1, v) else p) : String × α).1 = p.1 := by
      by_cases hk : p.1 == k <;> simp [hk]
    simp only [List.map_cons, List.find?, hfst]
    by_cases hn : (p.1 == n) = true
    · simp [hn]
    · simp only [Bool.not_eq_true] at hn
      simp only [hn]
      exact ih

/-- Lookup after Python dict assignment: the assigned key maps to the new
value, every other key is untouched. -/
theorem pdictGet?_insert {α : Type} (d : List (String × α)) (k n : String) (v : α) :
    pdictGet? (pdictInsert d k v) n = if n = k then some v else pdictGet? d n := by
  unfold pdictInsert pdictGet?
  by_cases hc : d.any (fun p => p.1 == k)
  · rw [if_pos hc, find?_map_replace]
    rcases hfind : d.find? (fun q => q.1 == n) with _ | q
    · rw [hfind]
      by_cases hn : n = k
      · exfalso
        obtain ⟨p, hp, hpk⟩ := List.any_eq_true.mp hc
        rw [List.find?_eq_none] at hfind
        apply hfind p hp
        rw [hn]
        exact hpk
      · simp [hn]
    · rw [hfind]
      have hq : q.1 = n := by
        have := List.find?_some hfind
        simpa using this
      by_cases hn : n = k
      · rw [if_pos hn]
        have hq1 : q.1 = k := by rw [hq, hn]
        simp [hq1]
      · rw [if_neg hn]
        have hq1 : ¬ q.1 = k := by rw [hq]; exact hn
        simp [hq1]
  · rw [if_neg hc]
    by_cases hn : n = k
    · have hdn : d.find? (fun p => p.1 == n) = none := by
        rw [List.find?_eq_none]
        intro p hp hpk
        apply hc
        apply List.any_eq_true.mpr
        refine ⟨p, hp, ?_⟩
        rw [← hn]
        exact hpk
      rw [List.find?_append, hdn, if_pos hn, Option.none_or]
      have : ((k, v).1 == n) = true := by
        rw [beq_iff_eq, hn]
      simp [List.find?, this]
    · rw [List.find?_append, if_neg hn]
      have h1 : List.find? (fun p => p.1 == n) [(k, v)] = none := by
        rw [List.find?_eq_none]
        intro p hp hpn
        rw [List.mem_singleton] at hp
        subst hp
        rw [beq_iff_eq] at hpn
        exact hn hpn.symm
      rw [h1, Option.or_none]

/-- Folding the `parse_parameters` loop body over parameters whose names all
differ from `n` leaves the entry of `n` unchanged. -/
theorem parse_parameters_fold_preserve (pds : String → Option String)
    (ps : List Param) :
    ∀ (acc props : List (String × PropSpec)) (n : String),
      List.foldlM (parse_parameters_step pds) acc ps = Except.ok props →
      (∀ p ∈ ps, p.name ≠ n) →
      pdictGet? props n = pdictGet? acc n := by
  induction ps with
  | nil =>
    intro acc props n h _
    simp only [List.foldlM_nil, pure, Except.pure, Except.ok.injEq] at h
    rw [h]
  | cons p ps' ih =>
    intro acc props n h hn
    rw [List.foldlM_cons] at h
    rcases hmt : map_type p with e | t
    · rw [parse_parameters_step, hmt] at h
      simp [Bind.bind, Except.bind] at h
    · rw [parse_parameters_step, hmt] at h
      simp only [Bind.bind, Except.bind, Except.pure, pure] at h
      rw [ih _ props n h (fun q hq => hn q (List.mem_cons_of_mem _ hq)),
        pdictGet?_insert]
      rw [if_neg (fun hq => hn p (List.mem_cons_self p ps') hq.symm)]

/-- Folding the `parse_parameters` loop body over a duplicate-free parameter
list gives each parameter exactly the entry its own loop iteration built. -/
theorem parse_parameters_fold_get (pds : String → Option String) (ps : List Param) :
    ∀ (acc props : List (String × PropSpec)) (param : Param),
      param ∈ ps → (ps.map Param.name).Nodup →
      List.foldlM (parse_parameters_step pds) acc ps = Except.ok props →
      ∃ t, map_type param = Except.ok t ∧
        pdictGet? props param.name = some
          { type := t
            enum := pyTruthyList (map_enum param)
            description := pds param.name } := by
  induction ps with
  | nil => intro acc props param hmem; exact absurd hmem (List.not_mem_nil param)
  | cons p ps' ih =>
    intro acc props param hmem hnd h
    rw [List.foldlM_cons] at h
    rcases hmt : map_type p with e | t
    · rw [parse_parameters_step, hmt] at h
      simp [Bind.bind, Except.bind] at h
    · rw [parse_parameters_step, hmt] at h
      simp only [Bind.bind, Except.bind, Except.pure, pure] at h
      rcases List.mem_cons.mp hmem with hp | hp
    -- `param` is the head: its entry survives the rest of the fold
      · subst hp
        have hrest : ∀ q ∈ ps', q.name ≠ param.name := by
          intro q hq hqn
          have := (List.nodup_cons.mp hnd).1
          exact this (hqn ▸ List.mem_map_of_mem Param.name hq)
        rw [parse_parameters_fold_preserve pds ps' _ props param.name h hrest,
          pdictGet?_insert, if_pos rfl]
        exact ⟨t, hmt, rfl⟩
      · exact ih _ props param hp (List.nodup_cons.mp hnd).2 h

/-- C7 counterexample: the claim says every enumeration-typed parameter's
property carries the member-name list as its `enum`.  A memberless
enumeration over `str` is an enumeration, yet Python truthiness drops the
empty list, so the emitted property has NO `enum` key at all. -/
theorem parse_parameters_empty_enum_no_enum_key :
    issubclassEnum (Annot.strEnum "Empty" []) = true ∧
    parse_parameters
        { name := "choose", doc := "", impl := fun _ => ""
          params := [{ name := "e", annot := Annot.strEnum "Empty" [],
                       hasDefault := false }] }
        emptyDict =
      Except.ok [("e", { type := "string", enum := none, description := none })] :=
  ⟨rfl, rfl⟩

/-- C7 amended: for a parameter of enumeration type in a duplicate-free
signature, the emitted property keeps wire type `"string"`/`"integer"`
according to the enumeration's base, and its `enum` is exactly the member
names in declaration order whenever there is at least one member — while a
memberless enumeration omits the `enum` key (the empty list is falsy). -/
theorem parse_parameters_enum_spec (func : Func) (pds : String → Option String)
    (props : List (String × PropSpec)) (param : Param)
    (hmem : param ∈ func.params)
    (hnd : (func.params.map Param.name).Nodup)
    (hok : parse_parameters func pds = Except.ok props)
    (hen : issubclassEnum param.annot = true) :
    pdictGet? props param.name = some
      { type := if issubclassStr param.annot then "string" else "integer"
        enum := match enumMembers param.annot with
                | [] => none
                | m :: ms => some (m :: ms)
        description := pds param.name } := by
  obtain ⟨t, hmt, hget⟩ :=
    parse_parameters_fold_get pds func.params [] props param hmem hnd hok
  rw [hget]
  have htype : t = if issubclassStr param.annot then "string" else "integer" := by
    unfold map_type at hmt
    by_cases hs : issubclassStr param.annot
    · rw [if_pos hs] at hmt
      rw [if_pos hs]
      injection hmt with h
      exact h.symm
    · rw [if_neg hs] at hmt
      rw [if_neg hs]
      by_cases hi : issubclassInt param.annot
      · rw [if_pos hi] at hmt
        injection hmt with h
        exact h.symm
      · rw [if_neg hi] at hmt
        cases hmt
  have henum : pyTruthyList (map_enum param) =
      (match enumMembers param.annot with
       | [] => none
       | m :: ms => some (m :: ms)) := by
    unfold map_enum
    rw [if_pos hen]
    rcases enumMembers param.annot with _ | ⟨m, ms⟩ <;> rfl
  rw [htype, henum]

/-- C7 witness: a two-member string enumeration emits
`type = "string", enum = ["RED", "GREEN"]`, and a two-member integer
enumeration emits `type = "integer"` with its member names. -/
theorem parse_parameters_enum_spec_witness :
    pdictGet? ([("c", { type := "string", enum := some ["RED", "GREEN"],
                        description := none })] : List (String × PropSpec)) "c" =
      some { type := "string", enum := some ["RED", "GREEN"], description := none } ∧
    pdictGet? ([("d", { type := "integer", enum := some ["ONE", "TWO"],
                        description := none })] : List (String × PropSpec)) "d" =
      some { type := "integer", enum := some ["ONE", "TWO"], description := none } :=
  ⟨parse_parameters_enum_spec
      ({ name := "pick", doc := "", impl := fun _ => ""
         params := [{ name := "c", annot := Annot.strEnum "Color" ["RED", "GREEN"],
                      hasDefault := false }] } : Func)
      emptyDict
      ([("c", { type := "string", enum := some ["RED", "GREEN"],
                description := none })] : List (String × PropSpec))
      ({ name := "c", annot := Annot.strEnum "Color" ["RED", "GREEN"],
         hasDefault := false } : Param)
      (by decide) (by decide) rfl rfl,
   parse_parameters_enum_spec
      ({ name := "pickInt", doc := "", impl := fun _ => ""
         params := [{ name := "d", annot := Annot.intEnum "Digit" ["ONE", "TWO"],
                      hasDefault := false }] } : Func)
      emptyDict
      ([("d", { type := "integer", enum := some ["ONE", "TWO"],
                description := none })] : List (String × PropSpec))
      ({ name := "d", annot := Annot.intEnum "Digit" ["ONE", "TWO"],
         hasDefault := false } : Param)
      (by decide) (by decide) rfl rfl⟩

/-- Blank line test: only whitespace (also true of the empty line). -/
def isBlankLine (l : List Char) : Bool := l.all isPySpace

theorem stripLeft_cons (c : Char) (cs : List Char) :
    stripLeft (c :: cs) = if isPySpace c then stripLeft cs else c :: cs := by
  simp [stripLeft, List.dropWhile_cons]

theorem stripRight_cons (c : Char) (cs : List Char) :
    stripRight (c :: cs) =
      match stripRight cs with
      | [] => if isPySpace c then [] else [c]
      | c' :: cs' => c :: c' :: cs' := rfl

theorem stripRight_cons_nil (c : Char) (cs : List Char) (h : stripRight cs = []) :
    stripRight (c :: cs) = if isPySpace c then [] else [c] := by
  rw [stripRight_cons, h]

theorem stripRight_cons_cons (c c' : Char) (cs cs' : List Char)
    (h : stripRight cs = c' :: cs') :
    stripRight (c :: cs) = c :: c' :: cs' := by
  rw [stripRight_cons, h]

theorem stripLeft_idem (cs : List Char) :
    stripLeft (stripLeft cs) = stripLeft cs := by
  induction cs with
  | nil => rfl
  | cons c cs ih =>
    rw [stripLeft_cons]
    by_cases hc : isPySpace c
    · rw [if_pos hc]
      exact ih
    · rw [if_neg hc, stripLeft_cons, if_neg hc]

theorem stripRight_eq_nil_iff (cs : List Char) :
    stripRight cs = [] ↔ cs.all isPySpace := by
  induction cs with
  | nil => simp [stripRight]
  | cons c cs ih =>
    rcases hsr : stripRight cs with _ | ⟨c', cs'⟩
    · rw [stripRight_cons_nil c cs hsr]
      rw [hsr] at ih
      by_cases hc : isPySpace c
      · simp [hc, ih.mp rfl]
      · simp [hc]
    · rw [stripRight_cons_cons c c' cs cs' hsr]
      constructor
      · intro h; cases h
      · intro h
        rw [List.all_cons, Bool.and_eq_true] at h
        have h2 := ih.mpr h.2
        rw [h2] at hsr
        cases hsr

theorem stripRight_idem (cs : List Char) :
    stripRight (stripRight cs) = stripRight cs := by
  induction cs with
  | nil => rfl
  | cons c cs ih =>
    rcases hsr : stripRight cs with _ | ⟨c', cs'⟩
    · rw [stripRight_cons_nil c cs hsr]
      by_cases hc : isPySpace c
      · rw [if_pos hc]
        rfl
      · rw [if_neg hc, stripRight_cons_nil c [] rfl, if_neg hc]
    · rw [stripRight_cons_cons c c' cs cs' hsr]
      rw [hsr] at ih
      exact stripRight_cons_cons c c' (c' :: cs') cs' ih

theorem pyStrip_stripRight (cs : List Char) :
    pyStrip (stripRight cs) = pyStrip cs := by
  unfold pyStrip
  rw [stripRight_idem]

theorem isBlankLine_stripRight (cs : List Char) :
    isBlankLine (stripRight cs) = isBlankLine cs := by
  by_cases h : isBlankLine cs
  · have h0 : stripRight cs = [] := (stripRight_eq_nil_iff cs).mpr h
    rw [h0, h]
    rfl
  · rw [Bool.not_eq_true] at h
    rw [h, Bool.eq_false_iff]
    intro hb
    have h1 : stripRight (stripRight cs) = [] := (stripRight_eq_nil_iff _).mpr hb
    rw [stripRight_idem] at h1
    have h2 : isBlankLine cs = true := (stripRight_eq_nil_iff cs).mp h1
    rw [h2] at h
    cases h

/-- A whitespace character is never a word character. -/
theorem isWordChar_of_isPySpace (c : Char) (h : isPySpace c = true) :
    isWordChar c = false := by
  simp only [isPySpace, Bool.or_eq_true, beq_iff_eq] at h
  rcases h with ((((h | h) | h) | h) | h) | h <;> subst h <;> rfl

/-- Strings without whitespace are unchanged by right-stripping. -/
theorem stripRight_of_no_space (cs : List Char)
    (h : ∀ c ∈ cs, isPySpace c = false) : stripRight cs = cs := by
  induction cs with
  | nil => rfl
  | cons c cs ih =>
    have ih' := ih (fun c' hc' => h c' (List.mem_cons_of_mem _ hc'))
    rcases cs with _ | ⟨c', cs'⟩
    · rw [stripRight_cons_nil c [] rfl, if_neg (by
        rw [h c (List.mem_cons_self c [])]
        exact Bool.false_ne_true)]
    · exact stripRight_cons_cons c c' (c' :: cs') cs' ih'

theorem stripRight_append (xs ys : List Char) :
    stripRight (xs ++ ys) =
      if stripRight ys = [] then stripRight xs else xs ++ stripRight ys := by
  induction xs with
  | nil =>
    rcases hsr : stripRight ys with _ | ⟨c', cs'⟩ <;> simp [hsr, stripRight]
  | cons x xs ih =>
    rw [List.cons_append]
    by_cases hy : stripRight ys = []
    · rw [if_pos hy]
      rcases hx : stripRight (xs ++ ys) with _ | ⟨c', cs'⟩
      · rw [stripRight_cons_nil x (xs ++ ys) hx]
        rw [ih, if_pos hy] at hx
        rw [stripRight_cons_nil x xs hx]
      · rw [stripRight_cons_cons x c' (xs ++ ys) cs' hx]
        rw [ih, if_pos hy] at hx
        rw [stripRight_cons_cons x c' xs cs' hx]
    · rw [if_neg hy]
      rcases hx : stripRight (xs ++ ys) with _ | ⟨c', cs'⟩
      · rw [ih, if_neg hy] at hx
        rcases List.append_eq_nil.mp hx with ⟨_, h2⟩
        exact absurd h2 hy
      · rw [stripRight_cons_cons x c' (xs ++ ys) cs' hx]
        rw [ih, if_neg hy] at hx
        rw [List.cons_append, hx]

/-- Left-stripping commutes with right-stripping. -/
theorem stripLeft_stripRight (cs : List Char) :
    stripLeft (stripRight cs) = stripRight (stripLeft cs) := by
  induction cs with
  | nil => rfl
  | cons c cs ih =>
    by_cases hc : isPySpace c
    · rw [stripLeft_cons, if_pos hc, ← ih]
      rcases hsr : stripRight cs with _ | ⟨c', cs'⟩
      · rw [stripRight_cons_nil c cs hsr, if_pos hc]
      · rw [stripRight_cons_cons c c' cs cs' hsr, stripLeft_cons, if_pos hc]
    · rw [stripLeft_cons, if_neg hc]
      rcases hsr : stripRight cs with _ | ⟨c', cs'⟩
      · rw [stripRight_cons_nil c cs hsr, if_neg hc, stripLeft_cons, if_neg hc]
      · rw [stripRight_cons_cons c c' cs cs' hsr, stripLeft_cons, if_neg hc]

/-- Stripping both sides of a left-stripped string strips the original. -/
theorem pyStrip_stripLeft (cs : List Char) :
    pyStrip (stripLeft cs) = pyStrip cs := by
  unfold pyStrip
  rw [stripLeft_stripRight (stripLeft cs), stripLeft_idem, ← stripLeft_stripRight]

theorem takeWhile_all_eq {p : Char → Bool} (l : List Char)
    (h : ∀ c ∈ l, p c = true) : l.takeWhile p = l := by
  induction l with
  | nil => rfl
  | cons c l ih =>
    rw [List.takeWhile_cons, h c (List.mem_cons_self c l), if_pos rfl,
      ih (fun c' hc' => h c' (List.mem_cons_of_mem _ hc'))]

theorem dropWhile_all_eq {p : Char → Bool} (l : List Char)
    (h : ∀ c ∈ l, p c = true) : l.dropWhile p = [] := by
  induction l with
  | nil => rfl
  | cons c l ih =>
    rw [List.dropWhile_cons, h c (List.mem_cons_self c l), if_pos rfl,
      ih (fun c' hc' => h c' (List.mem_cons_of_mem _ hc'))]

theorem takeWhile_append_all {p : Char → Bool} (xs ys : List Char)
    (h : ∀ c ∈ xs, p c = true) :
    (xs ++ ys).takeWhile p = xs ++ ys.takeWhile p := by
  induction xs with
  | nil => rfl
  | cons x xs ih =>
    rw [List.cons_append, List.takeWhile_cons, h x (List.mem_cons_self x xs),
      if_pos rfl, ih (fun c' hc' => h c' (List.mem_cons_of_mem _ hc')),
      List.cons_append]

theorem dropWhile_append_all {p : Char → Bool} (xs ys : List Char)
    (h : ∀ c ∈ xs, p c = true) :
    (xs ++ ys).dropWhile p = ys.dropWhile p := by
  induction xs with
  | nil => rfl
  | cons x xs ih =>
    rw [List.cons_append, List.dropWhile_cons, h x (List.mem_cons_self x xs),
      if_pos rfl, ih (fun c' hc' => h c' (List.mem_cons_of_mem _ hc'))]

theorem dropWhile_head_false {p : Char → Bool} (l : List Char) (c : Char)
    (r : List Char) (h : l.dropWhile p = c :: r) : p c = false := by
  induction l with
  | nil => cases h
  | cons a l ih =>
    rw [List.dropWhile_cons] at h
    by_cases ha : p a
    · rw [if_pos ha] at h
      exact ih h
    · rw [if_neg ha] at h
      injection h with h1 h2
      subst h1
      simpa using ha

/-- A nonempty right-strip of a cons keeps the head character. -/
theorem stripRight_cons_ne_nil (c : Char) (cs : List Char)
    (h : stripRight (c :: cs) ≠ []) :
    stripRight (c :: cs) = c :: stripRight cs := by
  rcases hsr : stripRight cs with _ | ⟨c', cs'⟩
  · rw [stripRight_cons_nil c cs hsr] at *
    by_cases hc : isPySpace c
    · rw [if_pos hc] at h
      exact absurd rfl h
    · rw [if_neg hc]
  · exact stripRight_cons_cons c c' cs cs' hsr

/-- The core of `matchParamLine` once its leading whitespace is consumed. -/
def matchAfterWs (afterWs : List Char) : Option (List Char × List Char) :=
  let word := afterWs.takeWhile isWordChar
  if word.isEmpty then none
  else
    match afterWs.dropWhile isWordChar with
    | ':' :: rest => some (word, pyStrip rest)
    | _ => none

theorem matchParamLine_eq_matchAfterWs (l : List Char) :
    matchParamLine l = matchAfterWs (l.dropWhile isPySpace) := rfl

theorem dropWhile_space_stripRight (l : List Char) :
    (stripRight l).dropWhile isPySpace = stripRight (l.dropWhile isPySpace) :=
  stripLeft_stripRight l

/-- The regex core sees through right-stripping: trailing whitespace can only
disappear from the `.*` group, which is stripped anyway, or erase a trailing
all-whitespace remainder that could not have matched. -/
theorem matchAfterWs_stripRight (a : List Char) :
    matchAfterWs (stripRight a) = matchAfterWs a := by
  have hwr : a.takeWhile isWordChar ++ a.dropWhile isWordChar = a :=
    List.takeWhile_append_dropWhile isWordChar a
  have hw_word : ∀ c ∈ a.takeWhile isWordChar, isWordChar c = true :=
    fun c hc => List.mem_takeWhile_imp hc
  have hw_nospace : ∀ c ∈ a.takeWhile isWordChar, isPySpace c = false := by
    intro c hc
    by_cases hs : isPySpace c
    · have hwc := isWordChar_of_isPySpace c hs
      rw [hw_word c hc] at hwc
      cases hwc
    · simpa using hs
  conv_lhs => rw [← hwr]
  conv_rhs => rw [← hwr]
  rw [stripRight_append]
  by_cases hr : stripRight (a.dropWhile isWordChar) = []
  · rw [if_pos hr, stripRight_of_no_space _ hw_nospace]
    have hr_space : ∀ c ∈ a.dropWhile isWordChar, isPySpace c = true :=
      List.all_eq_true.mp ((stripRight_eq_nil_iff _).mp hr)
    -- both sides are `none`: the left has nothing after the word run, the
    -- right has only whitespace after it, which cannot start with a colon
    unfold matchAfterWs
    rw [takeWhile_all_eq _ hw_word,
      takeWhile_append_all _ _ hw_word,
      dropWhile_all_eq _ hw_word,
      dropWhile_append_all _ _ hw_word]
    rcases hd : a.dropWhile isWordChar with _ | ⟨c, r'⟩
    · simp
    · have hcs : isPySpace c = true :=
        hr_space c (by rw [hd]; exact List.mem_cons_self c r')
      have hcw : isWordChar c = false := isWordChar_of_isPySpace c hcs
      have hcolon : c ≠ ':' := by
        intro hceq
        rw [hceq] at hcs
        cases hcs
      rw [List.takeWhile_cons, hcw, List.dropWhile_cons, hcw]
      simp only [Bool.false_eq_true, if_false, List.append_nil]
      by_cases hw0 : (List.takeWhile isWordChar a).isEmpty
      · rw [if_pos hw0, if_pos hw0]
      · rw [if_neg hw0, if_neg hw0]
        split
        · rename_i rest heq
          rw [List.cons.injEq] at heq
          exact absurd heq.1 hcolon
        · rfl
  · rw [if_neg hr]
    rcases hd : a.dropWhile isWordChar with _ | ⟨c, r'⟩
    · rw [hd] at hr
      exact absurd rfl hr
    · rw [hd] at hr
      have hhead : stripRight (c :: r') = c :: stripRight r' :=
        stripRight_cons_ne_nil c r' hr
      rw [hhead]
      have hcw : isWordChar c = false := dropWhile_head_false a c r' hd
      unfold matchAfterWs
      rw [takeWhile_append_all _ _ hw_word, takeWhile_append_all _ _ hw_word,
        dropWhile_append_all _ _ hw_word, dropWhile_append_all _ _ hw_word,
        List.takeWhile_cons, hcw, List.takeWhile_cons, hcw,
        List.dropWhile_cons, hcw, List.dropWhile_cons, hcw]
      simp only [Bool.false_eq_true, if_false, List.append_nil]
      by_cases hw0 : (List.takeWhile isWordChar a).isEmpty
      · rw [if_pos hw0, if_pos hw0]
      · rw [if_neg hw0, if_neg hw0]
        by_cases hcolon : c = ':'
        · subst hcolon
          show some (List.takeWhile isWordChar a, pyStrip (stripRight r')) =
            some (List.takeWhile isWordChar a, pyStrip r')
          rw [pyStrip_stripRight]
        · split
          · rename_i rest heq
            rw [List.cons.injEq] at heq
            exact absurd heq.1 hcolon
          · split
            · rename_i rest heq
              rw [List.cons.injEq] at heq
              exact absurd heq.1 hcolon
            · rfl

/-- The match result of a line is unchanged by right-stripping the line. -/
theorem matchParamLine_stripRight (l : List Char) :
    matchParamLine (stripRight l) = matchParamLine l := by
  rw [matchParamLine_eq_matchAfterWs, matchParamLine_eq_matchAfterWs,
    dropWhile_space_stripRight, matchAfterWs_stripRight]

/-- Blank lines never match the parameter pattern (`\w+` needs a word
character). -/
theorem matchParamLine_blank (l : List Char) (h : isBlankLine l = true) :
    matchParamLine l = none := by
  unfold matchParamLine
  have hd : l.dropWhile isPySpace = [] := by
    rw [List.dropWhile_eq_nil_iff]
    intro c hc
    exact List.all_eq_true.mp h c hc
  rw [hd]
  rfl

theorem splitLines_cons (c : Char) (cs : List Char) :
    splitLines (c :: cs) =
      match splitLines cs with
      | [] => [[]]
      | l :: ls => if c == '\n' then [] :: l :: ls else (c :: l) :: ls := rfl

theorem splitLines_ne_nil (cs : List Char) : splitLines cs ≠ [] := by
  induction cs with
  | nil => simp [splitLines]
  | cons c cs ih =>
    rw [splitLines_cons]
    rcases hs : splitLines cs with _ | ⟨l, ls⟩
    · simp
    · by_cases hc : c == '\n' <;> simp [hc]

theorem splitLines_cons_cons (c : Char) (cs l : List Char) (ls : List (List Char))
    (h : splitLines cs = l :: ls) :
    splitLines (c :: cs) = if c == '\n' then [] :: l :: ls else (c :: l) :: ls := by
  rw [splitLines_cons, h]

theorem splitLines_eq_singleton (cs : List Char) (h : splitLines cs = [[]]) :
    cs = [] := by
  cases cs with
  | nil => rfl
  | cons c cs =>
    exfalso
    rcases hs : splitLines cs with _ | ⟨l, ls⟩
    · exact splitLines_ne_nil cs hs
    · rw [splitLines_cons_cons c cs l ls hs] at h
      by_cases hc : c == '\n'
      · rw [if_pos hc] at h
        injection h with h1 h2
        cases h2
      · rw [if_neg hc] at h
        injection h with h1 h2
        cases h1

/-- The effect of right-stripping the underlying string on its list of lines:
trailing all-whitespace lines disappear and the last surviving line is
right-stripped. -/
def stripRightLines : List (List Char) → List (List Char)
  | [] => []
  | l :: ls =>
    match stripRightLines ls with
    | [] => if stripRight l = [] then [] else [stripRight l]
    | l' :: ls' => l :: l' :: ls'

theorem stripRightLines_cons (l : List Char) (ls : List (List Char)) :
    stripRightLines (l :: ls) =
      match stripRightLines ls with
      | [] => if stripRight l = [] then [] else [stripRight l]
      | l' :: ls' => l :: l' :: ls' := rfl

theorem stripRightLines_cons_eq_nil {l : List Char} {ls : List (List Char)}
    (h : stripRightLines (l :: ls) = []) :
    stripRightLines ls = [] ∧ stripRight l = [] := by
  rw [stripRightLines_cons] at h
  rcases ht : stripRightLines ls with _ | ⟨l', ls'⟩
  · rw [ht] at h
    refine ⟨rfl, ?_⟩
    by_cases hl : stripRight l = []
    · exact hl
    · rw [if_neg hl] at h
      cases h
  · rw [ht] at h
    cases h

theorem stripRightLines_splitLines_nil (cs : List Char) (h : stripRight cs = []) :
    stripRightLines (splitLines cs) = [] := by
  induction cs with
  | nil => rfl
  | cons c cs ih =>
    rcases hsr : stripRight cs with _ | ⟨c', cs'⟩
    · have hc : isPySpace c = true := by
        rw [stripRight_cons_nil c cs hsr] at h
        by_cases hc : isPySpace c
        · exact hc
        · rw [if_neg hc] at h
          cases h
      have ih' := ih hsr
      rcases hs : splitLines cs with _ | ⟨l, ls⟩
      · exact absurd hs (splitLines_ne_nil cs)
      · rw [hs] at ih'
        rw [splitLines_cons_cons c cs l ls hs]
        by_cases hnl : c == '\n'
        · rw [if_pos hnl, stripRightLines_cons, ih']
          rw [if_pos (show stripRight ([] : List Char) = [] from rfl)]
        · rw [if_neg hnl]
          obtain ⟨h1, h2⟩ := stripRightLines_cons_eq_nil ih'
          rw [stripRightLines_cons, h1]
          rw [stripRight_cons_nil c l h2, if_pos hc, if_pos rfl]
    · rw [stripRight_cons_cons c c' cs cs' hsr] at h
      cases h

/-- How right-stripping the underlying string transforms the line list. -/
theorem splitLines_stripRight (cs : List Char) :
    splitLines (stripRight cs) =
      match stripRightLines (splitLines cs) with
      | [] => [[]]
      | l :: ls => l :: ls := by
  induction cs with
  | nil => rfl
  | cons c cs ih =>
    rcases hs : splitLines cs with _ | ⟨l, ls⟩
    · exact absurd hs (splitLines_ne_nil cs)
    · rw [splitLines_cons_cons c cs l ls hs]
      rcases hsr : stripRight cs with _ | ⟨c', cs'⟩
      · -- the tail strips to nothing: every line so far is whitespace
        have hT : stripRightLines (l :: ls) = [] := by
          rw [← hs]
          exact stripRightLines_splitLines_nil cs hsr
        obtain ⟨hT1, hT2⟩ := stripRightLines_cons_eq_nil hT
        rw [stripRight_cons_nil c cs hsr]
        by_cases hc : isPySpace c
        · rw [if_pos hc]
          by_cases hnl : c == '\n'
          · rw [if_pos hnl, stripRightLines_cons, hT,
              if_pos (show stripRight ([] : List Char) = [] from rfl)]
            rfl
          · rw [if_neg hnl, stripRightLines_cons, hT1,
              stripRight_cons_nil c l hT2, if_pos hc, if_pos rfl]
            rfl
        · rw [if_neg hc]
          have hnl : ¬ (c == '\n') = true := by
            intro hb
            rw [beq_iff_eq] at hb
            rw [hb] at hc
            exact hc rfl
          rw [if_neg hnl]
          have hcl : stripRight (c :: l) = [c] := by
            rw [stripRight_cons_nil c l hT2, if_neg hc]
          rw [stripRightLines_cons, hT1, if_neg (by rw [hcl]; simp), hcl]
          rw [splitLines_cons_cons c [] [] [] rfl, if_neg hnl]
      · -- the tail strips to c' :: cs'
        rw [stripRight_cons_cons c c' cs cs' hsr]
        rw [hsr, hs] at ih
        rcases hU : stripRightLines ls with _ | ⟨u, us⟩
        · by_cases hl : stripRight l = []
          · have hT : stripRightLines (l :: ls) = [] := by
              rw [stripRightLines_cons, hU, if_pos hl]
            rw [hT] at ih
            have h0 : (c' :: cs') = [] := splitLines_eq_singleton _ ih
            cases h0
          · have hT : stripRightLines (l :: ls) = [stripRight l] := by
              rw [stripRightLines_cons, hU, if_neg hl]
            rw [hT] at ih
            have ih' : splitLines (c' :: cs') = stripRight l :: [] := ih
            by_cases hnl : c == '\n'
            · rw [if_pos hnl]
              rw [splitLines_cons_cons c (c' :: cs') (stripRight l) [] ih',
                if_pos hnl]
              rw [stripRightLines_cons, hT]
            · rw [if_neg hnl]
              have hcl : stripRight (c :: l) = c :: stripRight l := by
                rcases hsl : stripRight l with _ | ⟨x, xs⟩
                · exact absurd hsl hl
                · exact stripRight_cons_cons c x l xs hsl
              rw [splitLines_cons_cons c (c' :: cs') (stripRight l) [] ih',
                if_neg hnl]
              rw [stripRightLines_cons, hU, if_neg (by rw [hcl]; simp), hcl]
        · have hT : stripRightLines (l :: ls) = l :: u :: us := by
            rw [stripRightLines_cons, hU]
          rw [hT] at ih
          have ih' : splitLines (c' :: cs') = l :: u :: us := ih
          by_cases hnl : c == '\n'
          · rw [if_pos hnl]
            rw [splitLines_cons_cons c (c' :: cs') l (u :: us) ih', if_pos hnl]
            rw [stripRightLines_cons, hT]
          · rw [if_neg hnl]
            rw [splitLines_cons_cons c (c' :: cs') l (u :: us) ih', if_neg hnl]
            rw [stripRightLines_cons, hU]

/-- How left-stripping the underlying string transforms the line list:
leading all-whitespace lines disappear and the first surviving line is
left-stripped. -/
theorem splitLines_stripLeft (cs : List Char) :
    splitLines (stripLeft cs) =
      match (splitLines cs).dropWhile isBlankLine with
      | [] => [[]]
      | l :: ls => stripLeft l :: ls := by
  induction cs with
  | nil => rfl
  | cons c cs ih =>
    rcases hs : splitLines cs with _ | ⟨l, ls⟩
    · exact absurd hs (splitLines_ne_nil cs)
    · rw [splitLines_cons_cons c cs l ls hs, stripLeft_cons]
      rw [hs] at ih
      by_cases hc : isPySpace c
      · rw [if_pos hc]
        by_cases hnl : c == '\n'
        · rw [if_pos hnl, List.dropWhile_cons,
            if_pos (show isBlankLine ([] : List Char) = true from rfl)]
          exact ih
        · rw [if_neg hnl]
          have hbl : isBlankLine (c :: l) = isBlankLine l := by
            simp [isBlankLine, List.all_cons, hc]
          rw [List.dropWhile_cons, hbl]
          by_cases hb : isBlankLine l
          · rw [if_pos hb, ih, List.dropWhile_cons, if_pos hb]
          · rw [if_neg hb, ih, List.dropWhile_cons, if_neg hb]
            show stripLeft l :: ls = stripLeft (c :: l) :: ls
            rw [stripLeft_cons, if_pos hc]
      · rw [if_neg hc]
        have hnl : ¬ (c == '\n') = true := by
          intro hb
          rw [beq_iff_eq] at hb
          rw [hb] at hc
          exact hc rfl
        rw [if_neg hnl, splitLines_cons_cons c cs l ls hs, if_neg hnl]
        have hbl : isBlankLine (c :: l) = false := by
          simp [isBlankLine, List.all_cons, hc]
        rw [List.dropWhile_cons, hbl]
        simp only [Bool.false_eq_true, if_false]
        show (c :: l) :: ls = stripLeft (c :: l) :: ls
        rw [stripLeft_cons, if_neg hc]

theorem stripRightLines_nil_all_blank (L : List (List Char))
    (h : stripRightLines L = []) : ∀ l ∈ L, isBlankLine l = true := by
  induction L with
  | nil => intro l hl; cases hl
  | cons l0 L ih =>
    obtain ⟨h1, h2⟩ := stripRightLines_cons_eq_nil h
    intro l hl
    rcases List.mem_cons.mp hl with rfl | hl'
    · exact (stripRight_eq_nil_iff l).mp h2
    · exact ih h1 l hl'

theorem filterMap_matchParamLine_all_blank (L : List (List Char))
    (h : ∀ l ∈ L, isBlankLine l = true) :
    L.filterMap matchParamLine = [] := by
  induction L with
  | nil => rfl
  | cons l L ih =>
    rw [List.filterMap_cons, matchParamLine_blank l (h l (List.mem_cons_self l L))]
    exact ih (fun l' hl' => h l' (List.mem_cons_of_mem _ hl'))

theorem filterMap_cons_tail_congr (l : List Char) (X Y : List (List Char))
    (h : X.filterMap matchParamLine = Y.filterMap matchParamLine) :
    (l :: X).filterMap matchParamLine = (l :: Y).filterMap matchParamLine := by
  rw [List.filterMap_cons, List.filterMap_cons, h]

/-- The matched parameter lines survive right-stripping of the whole line
list unchanged. -/
theorem filterMap_matchParamLine_stripRightLines (L : List (List Char)) :
    (stripRightLines L).filterMap matchParamLine = L.filterMap matchParamLine := by
  induction L with
  | nil => rfl
  | cons l L ih =>
    rw [stripRightLines_cons]
    rcases hU : stripRightLines L with _ | ⟨u, us⟩
    · have hblank : ∀ l' ∈ L, isBlankLine l' = true :=
        stripRightLines_nil_all_blank L hU
      have hLnil : L.filterMap matchParamLine = [] :=
        filterMap_matchParamLine_all_blank L hblank
      by_cases hl : stripRight l = []
      · rw [if_pos hl]
        have hbl : isBlankLine l = true := (stripRight_eq_nil_iff l).mp hl
        rw [List.filterMap_cons, matchParamLine_blank l hbl, hLnil]
        rfl
      · rw [if_neg hl]
        rw [List.filterMap_cons, List.filterMap_cons, matchParamLine_stripRight l,
          hLnil, List.filterMap_nil]
    · rw [hU] at ih
      exact filterMap_cons_tail_congr l (u :: us) L ih

/-- The stripped first non-blank line is insensitive to right-stripping the
line list. -/
theorem stripRightLines_top (L : List (List Char)) :
    pyStrip (((stripRightLines L).dropWhile isBlankLine).headD []) =
      pyStrip ((L.dropWhile isBlankLine).headD []) := by
  induction L with
  | nil => rfl
  | cons l L ih =>
    rw [stripRightLines_cons]
    rcases hU : stripRightLines L with _ | ⟨u, us⟩
    · by_cases hl : stripRight l = []
      · rw [if_pos hl]
        have hbl : isBlankLine l = true := (stripRight_eq_nil_iff l).mp hl
        rw [List.dropWhile_cons, hbl, if_pos rfl]
        rw [hU] at ih
        exact ih
      · have hbl : isBlankLine l = false := by
          rw [Bool.eq_false_iff]
          intro hb
          exact hl ((stripRight_eq_nil_iff l).mpr hb)
        rw [if_neg hl, List.dropWhile_cons, isBlankLine_stripRight, hbl,
          List.dropWhile_cons, hbl]
        simp only [Bool.false_eq_true, if_false]
        show pyStrip (stripRight l) = pyStrip l
        exact pyStrip_stripRight l
    · rw [hU] at ih
      conv_lhs => rw [List.dropWhile_cons]
      conv_rhs => rw [List.dropWhile_cons]
      by_cases hbl : isBlankLine l
      · rw [if_pos hbl, if_pos hbl]
        exact ih
      · rw [if_neg hbl, if_neg hbl]
        rfl

/-- The parameter matches after the first non-blank line are insensitive to
right-stripping the line list. -/
theorem stripRightLines_tail (L : List (List Char)) :
    ((stripRightLines L).dropWhile isBlankLine).tail.filterMap matchParamLine =
      (L.dropWhile isBlankLine).tail.filterMap matchParamLine := by
  induction L with
  | nil => rfl
  | cons l L ih =>
    rw [stripRightLines_cons]
    rcases hU : stripRightLines L with _ | ⟨u, us⟩
    · have hblank : ∀ l' ∈ L, isBlankLine l' = true :=
        stripRightLines_nil_all_blank L hU
      by_cases hl : stripRight l = []
      · rw [if_pos hl]
        have hbl : isBlankLine l = true := (stripRight_eq_nil_iff l).mp hl
        rw [List.dropWhile_cons, hbl, if_pos rfl]
        rw [hU] at ih
        exact ih
      · have hbl : isBlankLine l = false := by
          rw [Bool.eq_false_iff]
          intro hb
          exact hl ((stripRight_eq_nil_iff l).mpr hb)
        rw [if_neg hl, List.dropWhile_cons, isBlankLine_stripRight, hbl,
          List.dropWhile_cons, hbl]
        simp only [Bool.false_eq_true, if_false]
        show ([] : List (List Char)).filterMap matchParamLine =
          L.filterMap matchParamLine
        rw [filterMap_matchParamLine_all_blank L hblank]
        rfl
    · rw [hU] at ih
      conv_lhs => rw [List.dropWhile_cons]
      conv_rhs => rw [List.dropWhile_cons]
      by_cases hbl : isBlankLine l
      · rw [if_pos hbl, if_pos hbl]
        exact ih
      · rw [if_neg hbl, if_neg hbl]
        show (u :: us).filterMap matchParamLine = L.filterMap matchParamLine
        rw [← hU]
        exact filterMap_matchParamLine_stripRightLines L

/-- The combined effect of `str.strip` on the line list: drop blank lines at
both ends, left-strip the first surviving line (the last surviving one was
right-stripped by `stripRightLines`). -/
theorem splitLines_pyStrip (cs : List Char) :
    splitLines (pyStrip cs) =
      match (stripRightLines (splitLines cs)).dropWhile isBlankLine with
      | [] => [[]]
      | l :: ls => stripLeft l :: ls := by
  unfold pyStrip
  rw [splitLines_stripLeft (stripRight cs), splitLines_stripRight cs]
  rcases hT : stripRightLines (splitLines cs) with _ | ⟨t, ts⟩
  · rfl
  · rfl

theorem getLast?_cons_match {α : Type} (a : α) (l : List α) :
    (a :: l).getLast? =
      match l.getLast? with
      | some x => some x
      | none => some a := by
  induction l generalizing a with
  | nil => rfl
  | cons b l' ih =>
    rw [List.getLast?_cons_cons]
    rcases hx : (b :: l').getLast? with _ | x
    · exfalso
      rw [ih] at hx
      rcases hy : l'.getLast? with _ | y <;> rw [hy] at hx <;> simp at hx
    · rfl

/-- Lookup in the dict built by the description fold: the LAST matching line
for a name wins, and a name never matched falls back to the initial dict. -/
theorem parse_description_fold_get (lines : List (List Char)) :
    ∀ (d0 : String → Option String) (name : String),
      (lines.foldl (fun d line =>
          match matchParamLine line with
          | some kv => dictSet d (String.mk kv.1) (String.mk kv.2)
          | none => d) d0) name =
        match ((lines.filterMap matchParamLine).filter
            (fun kv => name == String.mk kv.1)).getLast? with
        | some kv => some (String.mk kv.2)
        | none => d0 name := by
  induction lines with
  | nil => intro d0 name; rfl
  | cons l lines ih =>
    intro d0 name
    rw [List.foldl_cons, List.filterMap_cons]
    rcases hm : matchParamLine l with _ | kv
    · rw [ih]
    · rw [ih, List.filter_cons]
      by_cases hn : (name == String.mk kv.1) = true
      · rw [if_pos hn, getLast?_cons_match]
        rcases hlast : ((lines.filterMap matchParamLine).filter
            (fun kv' => name == String.mk kv'.1)).getLast? with _ | kv'
        · rw [hlast]
          show dictSet d0 (String.mk kv.1) (String.mk kv.2) name =
            some (String.mk kv.2)
          unfold dictSet
          rw [if_pos hn]
        · rw [hlast]
      · rw [if_neg hn]
        rcases hlast : ((lines.filterMap matchParamLine).filter
            (fun kv' => name == String.mk kv'.1)).getLast? with _ | kv'
        · rw [hlast]
          show dictSet d0 (String.mk kv.1) (String.mk kv.2) name = d0 name
          unfold dictSet
          rw [if_neg hn]
        · rw [hlast]

/-- Written from the spec's words: the tool's top-level description is the
first non-blank line of the doc comment, trimmed (empty when there is none). -/
def spec_top_description (doc : String) : String :=
  String.mk (pyStrip (((splitLines doc.data).dropWhile isBlankLine).headD []))

/-- Written from the spec's words: a parameter's description is the trimmed
text of the LAST line after the first non-blank line that matches the
pattern `<identifier>: <text>` for this identifier; lines not matching the
pattern are ignored, and a never-matched name has no description. -/
def spec_param_description (doc : String) (name : String) : Option String :=
  match (((((splitLines doc.data).dropWhile isBlankLine).tail).filterMap
      matchParamLine).filter (fun kv => name == String.mk kv.1)).getLast? with
  | some kv => some (String.mk kv.2)
  | none => none

/-- C9: `parse_description` computes exactly the spec's description rule —
the top description is the first non-blank line of the docstring, trimmed,
and each parameter's description is the trimmed text of the last
`<identifier>: <text>` line after it, other lines being ignored. -/
theorem parse_description_spec (func : Func) :
    (parse_description func).1 = spec_top_description func.doc ∧
    ∀ name, (parse_description func).2 name = spec_param_description func.doc name := by
  by_cases hdoc : (func.doc == "") = true
  · have hd : func.doc = "" := by simpa using hdoc
    constructor
    · rw [parse_description, if_pos hdoc, hd]
      rfl
    · intro name
      rw [parse_description, if_pos hdoc, hd]
      rfl
  · constructor
    · rw [parse_description, if_neg hdoc]
      show String.mk (pyStrip ((splitLines (pyStrip func.doc.data)).headD [])) =
        spec_top_description func.doc
      rw [splitLines_pyStrip]
      unfold spec_top_description
      have htop := stripRightLines_top (splitLines func.doc.data)
      rcases hD : (stripRightLines (splitLines func.doc.data)).dropWhile isBlankLine
        with _ | ⟨t, ts⟩
      · rw [hD] at htop
        rw [← htop]
        rfl
      · rw [hD] at htop
        rw [← htop]
        show String.mk (pyStrip (stripLeft t)) = String.mk (pyStrip t)
        rw [pyStrip_stripLeft]
    · intro name
      rw [parse_description, if_neg hdoc]
      show ((splitLines (pyStrip func.doc.data)).drop 1).foldl
          (fun d line =>
            match matchParamLine line with
            | some kv => dictSet d (String.mk kv.1) (String.mk kv.2)
            | none => d) emptyDict name =
        spec_param_description func.doc name
      rw [parse_description_fold_get]
      have hlist : ((splitLines (pyStrip func.doc.data)).drop 1).filterMap
          matchParamLine =
          ((splitLines func.doc.data).dropWhile isBlankLine).tail.filterMap
            matchParamLine := by
        rw [splitLines_pyStrip]
        have htail := stripRightLines_tail (splitLines func.doc.data)
        rcases hD : (stripRightLines (splitLines func.doc.data)).dropWhile
            isBlankLine with _ | ⟨t, ts⟩
        · rw [hD] at htail
          rw [← htail]
          rfl
        · rw [hD] at htail
          rw [← htail]
          rfl
      rw [hlist]
      unfold spec_param_description
      rcases ((((splitLines func.doc.data).dropWhile isBlankLine).tail.filterMap
          matchParamLine).filter (fun kv => name == String.mk kv.1)).getLast?
        with _ | kv
      · rfl
      · rfl

/-- C9 witness: the description rule evaluated on the Scenario A callable. -/
theorem parse_description_spec_witness :
    (parse_description addFunc).1 = spec_top_description addFunc.doc ∧
    (parse_description addFunc).2 "a" = spec_param_description addFunc.doc "a" :=
  ⟨(parse_description_spec addFunc).1, (parse_description_spec addFunc).2 "a"⟩

end LLMFunctionClient
